import Mathlib

/-!
Verification development for the pipe-delimited task manager
(`src/sort_tasks.py`).  The program is embedded shallowly: Python strings
are `List Char`, Python `int` values are `Int`, task dictionaries are the
`Task` structure (with `Option` fields for keys that may be absent or set
to `None`), and the fallible parser returns a `ParseResult` that records
whether a record was produced, a line was skipped (with or without a
warning message), or an uncaught exception propagated to the caller.
-/

namespace SortTasks

/-- Python strings are modelled as lists of characters. -/
abbrev Str := List Char

/-- Model of Python `str.strip()` (and of the whitespace stripping done by
`int()`): drop whitespace characters from both ends.  `Char.isWhitespace`
covers space, tab, carriage return and newline, which are the whitespace
characters that occur in this program's data. -/
def pyStrip (l : Str) : Str :=
  ((l.dropWhile Char.isWhitespace).reverse.dropWhile Char.isWhitespace).reverse

/-- Model of Python `str.split(sep)` for a single-character separator:
`''.split('|') = ['']`, and every occurrence of the separator introduces a
new (possibly empty) field. -/
def splitOnChar (c : Char) : Str → List Str
  | [] => [[]]
  | x :: xs =>
    if x = c then [] :: splitOnChar c xs
    else
      match splitOnChar c xs with
      | [] => [[x]]
      | f :: rest => (x :: f) :: rest

/-- Numeric value of an ASCII digit character, if it is one. -/
def digitVal? (c : Char) : Option Nat :=
  if '0' ≤ c ∧ c ≤ '9' then some (c.toNat - 48) else none

/-- Value of a non-empty all-digit string, `none` otherwise. -/
def digitsVal? (l : Str) : Option Nat :=
  if l.isEmpty then none
  else l.foldl (fun acc c => acc.bind fun n => (digitVal? c).map fun d => 10 * n + d) (some 0)

/-- Model of Python `int(s)` on the strings this program produces and
consumes: strip whitespace, allow one leading sign, then require a
non-empty run of ASCII digits; any other content raises `ValueError`,
modelled as `none`. -/
def pyInt (s : Str) : Option Int :=
  match pyStrip s with
  | [] => none
  | c :: rest =>
    if c = '-' then (digitsVal? rest).map fun n => -(n : Int)
    else if c = '+' then (digitsVal? rest).map fun n => (n : Int)
    else (digitsVal? (c :: rest)).map fun n => (n : Int)

/-- The ASCII digit character for `n < 10`. -/
def digitChar (n : Nat) : Char := Char.ofNat (48 + n)

/-- Fuel-driven decimal rendering (structural recursion so that concrete
values compute inside the kernel); `natToStr` always supplies enough
fuel. -/
def natToStrAux : Nat → Nat → Str
  | 0, _ => []
  | fuel + 1, n =>
    if n < 10 then [digitChar n]
    else natToStrAux fuel (n / 10) ++ [digitChar (n % 10)]

/-- Decimal rendering of a natural number, as produced by Python `str`. -/
def natToStr (n : Nat) : Str := natToStrAux (n + 1) n

/-- Model of Python `str(i)` / f-string formatting for an `int`. -/
def intToStr (i : Int) : Str :=
  if i < 0 then '-' :: natToStr i.natAbs else natToStr i.toNat

/-- Outcome of the `datetime(...)` validation call. -/
inductive DtResult where
  | valid
  | valueError
  | overflow
deriving Repr, DecidableEq

/-- Smallest value of a C `int`, the type CPython converts `datetime`
constructor arguments into. -/
def cIntMin : Int := -2147483648

/-- Largest value of a C `int`. -/
def cIntMax : Int := 2147483647

/-- Gregorian leap-year rule used by `datetime`. -/
def isLeapYear (y : Int) : Bool :=
  y % 4 == 0 && (y % 100 != 0 || y % 400 == 0)

/-- Length of a month in the proleptic Gregorian calendar. -/
def daysInMonth (y m : Int) : Int :=
  if m = 2 then (if isLeapYear y then 29 else 28)
  else if m = 4 ∨ m = 6 ∨ m = 9 ∨ m = 11 then 30
  else 31

/-- Model of CPython `datetime(year, month, day, hour, minute)`:
each argument is first converted to a C `int` (an argument outside that
range raises `OverflowError`), then range-checked (year 1-9999, valid
Gregorian month/day, hour 0-23, minute 0-59; a violation raises
`ValueError`).  Calls with omitted hour/minute pass the defaults `0`. -/
def datetime_check (y m d h mi : Int) : DtResult :=
  if y < cIntMin ∨ cIntMax < y ∨ m < cIntMin ∨ cIntMax < m ∨ d < cIntMin ∨ cIntMax < d ∨
      h < cIntMin ∨ cIntMax < h ∨ mi < cIntMin ∨ cIntMax < mi then .overflow
  else if 1 ≤ y ∧ y ≤ 9999 ∧ 1 ≤ m ∧ m ≤ 12 ∧ 1 ≤ d ∧ d ≤ daysInMonth y m ∧
      0 ≤ h ∧ h ≤ 23 ∧ 0 ≤ mi ∧ mi ≤ 59 then .valid
  else .valueError

/-- A task dictionary.  The parser always sets all six keys (with
`hour`/`minute` possibly `None`, modelled as `none`); a `none` in
`year`/`month`/`day` models a dictionary from which that key is absent,
the defensive case handled by `task_sort_key`. -/
structure Task where
  name : Str
  year : Option Int
  month : Option Int
  day : Option Int
  hour : Option Int
  minute : Option Int
deriving Repr, DecidableEq

/-- Result of `parse_task_line`: a parsed record, a skipped line (with the
warning message printed, or `none` for a silently ignored blank line), or
an exception escaping to the caller. -/
inductive ParseResult where
  | ok (t : Task)
  | skip (warning : Option Str)
  | raise
deriving Repr, DecidableEq

/-- Characters of a Lean string literal, used to build message texts. -/
def strLit (s : String) : Str := s.data

/-- Warning printed by the 4-field branch of `parse_task_line`. -/
def warnMsg4 (line_num : Nat) (line : Str) : Str :=
  strLit "Warning: Skipping invalid data format on line " ++ natToStr line_num ++
    strLit ": \x27" ++ pyStrip line ++
    strLit "\x27 (Date parts must be integers or invalid date)"

/-- Warning printed by the 6-field branch of `parse_task_line`. -/
def warnMsg6 (line_num : Nat) (line : Str) : Str :=
  strLit "Warning: Skipping invalid data format on line " ++ natToStr line_num ++
    strLit ": \x27" ++ pyStrip line ++
    strLit "\x27 (Date/Time parts must be integers or invalid date/time)"

/-- Warning printed when a non-blank line has neither 4 nor 6 fields. -/
def warnMsgCount (line_num : Nat) (line : Str) : Str :=
  strLit "Warning: Skipping invalid line format on line " ++ natToStr line_num ++
    strLit ": \x27" ++ pyStrip line ++
    strLit "\x27 (Expected 4 or 6 parts separated by \x27|\x27)"

/-- Embedding of `parse_task_line` (src/sort_tasks.py lines 8-62).
The line is stripped and split on `|`; 4 fields are parsed as an untimed
task and 6 fields as a timed task, with integer conversion failures and
`datetime` `ValueError`s caught and turned into a warning; a `datetime`
`OverflowError` is not caught and propagates (`.raise`); a blank line is
silently ignored; any other field count warns about the expected counts. -/
def parse_task_line (line : Str) (line_num : Nat) : ParseResult :=
  match splitOnChar '|' (pyStrip line) with
  | [p0, p1, p2, p3] =>
    match pyInt (pyStrip p1), pyInt (pyStrip p2), pyInt (pyStrip p3) with
    | some y, some m, some d =>
      match datetime_check y m d 0 0 with
      | .valid => .ok ⟨pyStrip p0, some y, some m, some d, none, none⟩
      | .valueError => .skip (some (warnMsg4 line_num line))
      | .overflow => .raise
    | _, _, _ => .skip (some (warnMsg4 line_num line))
  | [p0, p1, p2, p3, p4, p5] =>
    match pyInt (pyStrip p1), pyInt (pyStrip p2), pyInt (pyStrip p3),
        pyInt (pyStrip p4), pyInt (pyStrip p5) with
    | some y, some m, some d, some h, some mi =>
      match datetime_check y m d h mi with
      | .valid => .ok ⟨pyStrip p0, some y, some m, some d, some h, some mi⟩
      | .valueError => .skip (some (warnMsg6 line_num line))
      | .overflow => .raise
    | _, _, _, _, _ => .skip (some (warnMsg6 line_num line))
  | _ =>
    if pyStrip line = [] then .skip none
    else .skip (some (warnMsgCount line_num line))

/-- Rendering of an optional field in the serializer: Python
`task.get(k, '')` formats an absent key as empty text. -/
def fieldStr : Option Int → Str
  | some i => intToStr i
  | none => []

/-- Embedding of the per-task body of `write_tasks_to_file`
(src/sort_tasks.py lines 71-78): the timed 6-field line when both `hour`
and `minute` are present (not `None`), otherwise the untimed 4-field
line; each line is newline-terminated. -/
def write_task_line (t : Task) : Str :=
  if t.hour.isSome && t.minute.isSome then
    t.name ++ '|' :: fieldStr t.year ++ '|' :: fieldStr t.month ++ '|' :: fieldStr t.day ++
      '|' :: fieldStr t.hour ++ '|' :: fieldStr t.minute ++ ['\n']
  else
    t.name ++ '|' :: fieldStr t.year ++ '|' :: fieldStr t.month ++ '|' :: fieldStr t.day ++ ['\n']

/-- The full file image written by `write_tasks_to_file`. -/
def write_tasks_to_file (tasks : List Task) : Str :=
  (tasks.map write_task_line).flatten

/-- The hour slot of the sort key: the hour when the task is timed,
`float('inf')` (modelled as `⊤` in `WithTop Int`) otherwise. -/
def hourKey (t : Task) : WithTop Int :=
  match t.hour with
  | some h => (h : WithTop Int)
  | none => ⊤

/-- The minute slot of the sort key: `task.get('minute', float('inf'))`
when the task is timed (so an absent minute also becomes infinity),
infinity otherwise. -/
def minuteKey (t : Task) : WithTop Int :=
  match t.hour with
  | some _ =>
    match t.minute with
    | some m => (m : WithTop Int)
    | none => ⊤
  | none => ⊤

/-- The lexicographic type of the Python sort-key tuple
`(year, month, day, has_time, hour, minute)`. -/
abbrev SortKey :=
  Int ×ₗ (Int ×ₗ (Int ×ₗ (Bool ×ₗ ((WithTop Int) ×ₗ (WithTop Int)))))

/-- Embedding of `task_sort_key` (src/sort_tasks.py lines 94-118):
missing date components default to `0` via `.get`, the `has_time` flag is
`hour is not None` (`false` sorts before `true`), and the hour/minute
slots fall back to `float('inf')`. -/
def task_sort_key (t : Task) : SortKey :=
  toLex (t.year.getD 0, toLex (t.month.getD 0, toLex (t.day.getD 0,
    toLex (t.hour.isSome, toLex (hourKey t, minuteKey t)))))

/-- The comparison Python's `sorted` performs between two tasks under
`key=task_sort_key`. -/
def taskLe (a b : Task) : Prop := task_sort_key a ≤ task_sort_key b

instance taskLe.decidableRel : DecidableRel taskLe := fun a b =>
  inferInstanceAs (Decidable (task_sort_key a ≤ task_sort_key b))

instance taskLe.isTotal : IsTotal Task taskLe :=
  ⟨fun a b => by unfold taskLe; exact le_total (task_sort_key a) (task_sort_key b)⟩

instance taskLe.isTrans : IsTrans Task taskLe :=
  ⟨fun a b c h h' => by unfold taskLe at *; exact le_trans h h'⟩

/-- Embedding of `sort_tasks` (src/sort_tasks.py lines 83-123): Python's
`sorted` is a stable comparison sort on the key order, so it is modelled
by the stable `insertionSort` on `taskLe`; the input list is returned
unchanged alongside a new sorted list. -/
def sort_tasks (tasks : List Task) : List Task :=
  tasks.insertionSort taskLe

/-- Error printed by `delete_task` for an out-of-range index. -/
def invalidIndexMsg : Str :=
  strLit "Invalid index. Please enter a number within the range."

/-- Result of one deletion attempt: the resulting collection, the record
removed (if any), the file image persisted (if a save happened), and the
error message printed (if the index was rejected). -/
structure DeleteResult where
  tasks : List Task
  removed : Option Task
  saved : Option Str
  errorMsg : Option Str
deriving Repr, DecidableEq

/-- Embedding of the index-handling core of `delete_task`
(src/sort_tasks.py lines 190-200): an index inside `0 ≤ i < len(tasks)`
pops the record at that position and immediately persists the whole
remaining collection; any other integer index is rejected with an error
message and changes nothing (the surrounding interactive re-prompt loop
is CLI plumbing outside the embedded core). -/
def delete_task (tasks : List Task) (i : Int) : DeleteResult :=
  if 0 ≤ i ∧ i < tasks.length then
    ⟨tasks.eraseIdx i.toNat, tasks[i.toNat]?,
      some (write_tasks_to_file (tasks.eraseIdx i.toNat)), none⟩
  else
    ⟨tasks, none, none, some invalidIndexMsg⟩

/-- Well-formed in-memory record for the sorter: date components present
and the spec's optional-time invariant (`hour` and `minute` present or
absent together). -/
def WFTask (t : Task) : Prop :=
  t.year.isSome = true ∧ t.month.isSome = true ∧ t.day.isSome = true ∧
    t.hour.isSome = t.minute.isSome

instance WFTask.decidablePred : DecidablePred WFTask := fun t => by
  unfold WFTask; exact inferInstance

/-- The ordering described by the specification (§4.3), stated in its own
words: ascending by the composite key year, month, day, has-a-time flag
(untimed first on the same date), then hour and minute lexicographically
among timed records sharing a date.  `Option.getD 0` merely reads off a
field that the accompanying theorems guarantee to be present. -/
def specLE (t u : Task) : Prop :=
  t.year.getD 0 < u.year.getD 0 ∨
    (t.year.getD 0 = u.year.getD 0 ∧
      (t.month.getD 0 < u.month.getD 0 ∨
        (t.month.getD 0 = u.month.getD 0 ∧
          (t.day.getD 0 < u.day.getD 0 ∨
            (t.day.getD 0 = u.day.getD 0 ∧
              (t.hour = none ∨
                (t.hour.isSome = true ∧ u.hour.isSome = true ∧
                  (t.hour.getD 0 < u.hour.getD 0 ∨
                    (t.hour.getD 0 = u.hour.getD 0 ∧
                      t.minute.getD 0 ≤ u.minute.getD 0)))))))))

instance specLE.decidableRel : DecidableRel specLE := fun t u => by
  unfold specLE; exact inferInstance

/-- Modelled from the spec's data model (§3): a valid task record has a
non-empty name, present date components forming a valid calendar date,
and hour/minute present or absent together, valid as a time of day when
present.  Validity of the date/time is exactly what the program's own
`datetime` check accepts (with the constructor defaults `0` standing in
for an absent time). -/
def ValidTask (t : Task) : Prop :=
  t.name ≠ [] ∧ t.year.isSome = true ∧ t.month.isSome = true ∧ t.day.isSome = true ∧
    t.hour.isSome = t.minute.isSome ∧
    datetime_check (t.year.getD 0) (t.month.getD 0) (t.day.getD 0)
      (t.hour.getD 0) (t.minute.getD 0) = .valid

instance ValidTask.decidablePred : DecidablePred ValidTask := fun t => by
  unfold ValidTask; exact inferInstance

/-- The text `needle` occurs contiguously inside `hay`. -/
def containsSeg (needle hay : Str) : Prop := ∃ a b, hay = a ++ (needle ++ b)

/-- The timed record ("A", 2024-01-02, 09:00) from the spec's sort example. -/
def taskA : Task := ⟨strLit "A", some 2024, some 1, some 2, some 9, some 0⟩

/-- The untimed record ("B", 2024-01-02) from the spec's sort example. -/
def taskB : Task := ⟨strLit "B", some 2024, some 1, some 2, none, none⟩

/-- The untimed record ("C", 2024-01-01) from the spec's sort example. -/
def taskC : Task := ⟨strLit "C", some 2024, some 1, some 1, none, none⟩

/-- A valid record whose name contains the field separator. -/
def pipeNameTask : Task := ⟨strLit "a|b", some 2024, some 1, some 2, none, none⟩

/-- A record with an hour but no minute, the state claim C5 is about. -/
def partialTimeTask : Task := ⟨strLit "X", some 2024, some 1, some 2, some 9, none⟩

/-- The line `X|<y>|1|1`: every field is in range except possibly the year. -/
def yearLine (y : Int) : Str :=
  strLit "X" ++ '|' :: (intToStr y ++ '|' :: (strLit "1" ++ '|' :: strLit "1"))

/-! ### Arithmetic facts about digit rendering and parsing -/

theorem digitVal?_digitChar {d : Nat} (h : d < 10) : digitVal? (digitChar d) = some d := by
  interval_cases d <;> decide

theorem digitChar_not_ws {d : Nat} (h : d < 10) : (digitChar d).isWhitespace = false := by
  interval_cases d <;> decide

theorem digitChar_ne_pipe {d : Nat} (h : d < 10) : digitChar d ≠ '|' := by
  interval_cases d <;> decide

theorem digitChar_ne_minus {d : Nat} (h : d < 10) : digitChar d ≠ '-' := by
  interval_cases d <;> decide

theorem digitChar_ne_plus {d : Nat} (h : d < 10) : digitChar d ≠ '+' := by
  interval_cases d <;> decide

theorem natToStrAux_ne_nil : ∀ fuel n, n < fuel → natToStrAux fuel n ≠ []
  | fuel + 1, n, _ => by
    unfold natToStrAux
    split
    · simp
    · simp

theorem mem_natToStrAux : ∀ fuel n c, n < fuel → c ∈ natToStrAux fuel n →
    ∃ d, d < 10 ∧ c = digitChar d
  | fuel + 1, n, c, hn, hc => by
    unfold natToStrAux at hc
    split at hc
    · next h => simp only [List.mem_singleton] at hc; exact ⟨n, h, hc⟩
    · next h =>
      rw [List.mem_append, List.mem_singleton] at hc
      rcases hc with hc | hc
      · exact mem_natToStrAux fuel (n / 10) c (by omega) hc
      · exact ⟨n % 10, by omega, hc⟩

theorem digitsVal?_append_digit {a : Str} (ha : a ≠ []) (c : Char) :
    digitsVal? (a ++ [c]) =
      (digitsVal? a).bind fun n => (digitVal? c).map fun d => 10 * n + d := by
  unfold digitsVal?
  rw [if_neg (by simp : ¬((a ++ [c]).isEmpty = true)),
    if_neg (by simp [ha] : ¬(a.isEmpty = true)), List.foldl_append]
  rfl

theorem digitsVal?_natToStrAux : ∀ fuel n, n < fuel → digitsVal? (natToStrAux fuel n) = some n
  | fuel + 1, n, hn => by
    unfold natToStrAux
    split
    · next h =>
      unfold digitsVal?
      simp [List.foldl, digitVal?_digitChar h]
    · next h =>
      rw [digitsVal?_append_digit (natToStrAux_ne_nil fuel (n / 10) (by omega)),
        digitsVal?_natToStrAux fuel (n / 10) (by omega), digitVal?_digitChar (by omega : n % 10 < 10)]
      exact congrArg some (show 10 * (n / 10) + n % 10 = n by omega)

theorem digitsVal?_natToStr (n : Nat) : digitsVal? (natToStr n) = some n :=
  digitsVal?_natToStrAux (n + 1) n (by omega)

theorem natToStr_ne_nil (n : Nat) : natToStr n ≠ [] :=
  natToStrAux_ne_nil (n + 1) n (by omega)

theorem mem_natToStr {n : Nat} {c : Char} (hc : c ∈ natToStr n) :
    ∃ d, d < 10 ∧ c = digitChar d :=
  mem_natToStrAux (n + 1) n c (by omega) hc

theorem mem_intToStr_not_ws {i : Int} {c : Char} (hc : c ∈ intToStr i) :
    c.isWhitespace = false := by
  unfold intToStr at hc
  split at hc
  · rcases List.mem_cons.mp hc with rfl | hc
    · decide
    · obtain ⟨d, hd, rfl⟩ := mem_natToStr hc
      exact digitChar_not_ws hd
  · obtain ⟨d, hd, rfl⟩ := mem_natToStr hc
    exact digitChar_not_ws hd

theorem pipe_not_mem_intToStr {i : Int} : '|' ∉ intToStr i := by
  intro hc
  unfold intToStr at hc
  split at hc
  · rcases List.mem_cons.mp hc with h | hc
    · exact absurd h.symm (by decide)
    · obtain ⟨d, hd, h⟩ := mem_natToStr hc
      exact digitChar_ne_pipe hd h.symm
  · obtain ⟨d, hd, h⟩ := mem_natToStr hc
    exact digitChar_ne_pipe hd h.symm

theorem intToStr_ne_nil (i : Int) : intToStr i ≠ [] := by
  unfold intToStr
  split
  · simp
  · exact natToStr_ne_nil _

/-! ### Facts about `pyStrip` -/

theorem dropWhile_eq_self_of_head {p : Char → Bool} {l : Str}
    (h : ∀ c ∈ l.head?, p c = false) : l.dropWhile p = l := by
  cases l with
  | nil => rfl
  | cons a t =>
    exact List.dropWhile_cons_of_neg (by simpa using h a (by simp))

theorem pyStrip_eq_self_of {l : Str}
    (h1 : ∀ c ∈ l.head?, c.isWhitespace = false)
    (h2 : ∀ c ∈ l.getLast?, c.isWhitespace = false) : pyStrip l = l := by
  unfold pyStrip
  rw [dropWhile_eq_self_of_head h1,
    dropWhile_eq_self_of_head (by simpa using h2), List.reverse_reverse]

theorem pyStrip_of_forall_not_ws {l : Str} (h : ∀ c ∈ l, c.isWhitespace = false) :
    pyStrip l = l :=
  pyStrip_eq_self_of (fun c hc => h c (List.mem_of_mem_head? hc))
    (fun c hc => h c (List.mem_of_getLast?_eq_some hc))

theorem pyStrip_intToStr (i : Int) : pyStrip (intToStr i) = intToStr i :=
  pyStrip_of_forall_not_ws fun _ hc => mem_intToStr_not_ws hc

theorem pyStrip_append_newline {l : Str} (hne : l ≠ [])
    (h1 : ∀ c ∈ l.head?, c.isWhitespace = false)
    (h2 : ∀ c ∈ l.getLast?, c.isWhitespace = false) :
    pyStrip (l ++ ['\n']) = l := by
  have hd : (l ++ ['\n']).dropWhile Char.isWhitespace = l ++ ['\n'] := by
    apply dropWhile_eq_self_of_head
    intro c hc
    rw [List.head?_append] at hc
    obtain ⟨a, t, rfl⟩ := List.exists_cons_of_ne_nil hne
    replace hc : a = c := by simpa [Option.or] using hc
    exact hc ▸ h1 a (by simp)
  unfold pyStrip
  rw [hd, List.reverse_append, List.reverse_singleton, List.singleton_append,
    List.dropWhile_cons_of_pos (by decide),
    dropWhile_eq_self_of_head (by simpa using h2), List.reverse_reverse]

theorem pyStrip_self_head_last {l : Str} (h : pyStrip l = l) :
    (∀ c ∈ l.head?, c.isWhitespace = false) ∧ (∀ c ∈ l.getLast?, c.isWhitespace = false) := by
  have hlen1 : (l.dropWhile Char.isWhitespace).length ≤ l.length :=
    (List.dropWhile_sublist _).length_le
  have hlen2 : ((l.dropWhile Char.isWhitespace).reverse.dropWhile Char.isWhitespace).length ≤
      (l.dropWhile Char.isWhitespace).length := by
    simpa using (List.dropWhile_sublist (l := (l.dropWhile Char.isWhitespace).reverse)
      Char.isWhitespace).length_le
  have hlenl : ((l.dropWhile Char.isWhitespace).reverse.dropWhile Char.isWhitespace).length =
      l.length := by
    conv_rhs => rw [← h]
    simp [pyStrip]
  have hA : l.dropWhile Char.isWhitespace = l :=
    (List.dropWhile_sublist _).eq_of_length (by omega)
  have hB : (l.reverse.dropWhile Char.isWhitespace) = l.reverse := by
    have := (List.dropWhile_sublist (l := l.reverse) Char.isWhitespace).eq_of_length
    rw [hA] at hlenl
    exact this (by simpa using hlenl)
  constructor
  · intro c hc
    cases l with
    | nil => simp at hc
    | cons a t =>
      simp only [List.head?_cons, Option.mem_some_iff] at hc
      subst hc
      by_contra hws
      rw [List.dropWhile_cons_of_pos (by simpa using hws)] at hA
      have := (List.dropWhile_sublist (l := t) Char.isWhitespace).length_le
      have := congrArg List.length hA
      simp at this
      omega
  · intro c hc
    rw [← List.head?_reverse] at hc
    cases hr : l.reverse with
    | nil => rw [hr] at hc; simp at hc
    | cons a t =>
      rw [hr] at hc
      simp only [List.head?_cons, Option.mem_some_iff] at hc
      subst hc
      by_contra hws
      rw [hr, List.dropWhile_cons_of_pos (by simpa using hws)] at hB
      have := (List.dropWhile_sublist (l := t) Char.isWhitespace).length_le
      have := congrArg List.length hB
      simp at this
      omega

/-! ### Facts about `splitOnChar` -/

theorem splitOnChar_ne_nil (c : Char) : ∀ l : Str, splitOnChar c l ≠ []
  | [] => by simp [splitOnChar]
  | x :: xs => by
    unfold splitOnChar
    split
    · simp
    · split
      · simp
      · simp

theorem splitOnChar_cons_of_ne {c x : Char} {xs f : Str} {rest : List Str} (hx : x ≠ c)
    (h : splitOnChar c xs = f :: rest) :
    splitOnChar c (x :: xs) = (x :: f) :: rest := by
  simp only [splitOnChar, if_neg hx, h]

theorem splitOnChar_not_mem (c : Char) : ∀ (a : Str), c ∉ a → splitOnChar c a = [a]
  | [], _ => rfl
  | x :: a', h => by
    have hx : x ≠ c := fun hxc => h (hxc ▸ List.mem_cons_self x a')
    have ha' : c ∉ a' := fun hc => h (List.mem_cons_of_mem x hc)
    exact splitOnChar_cons_of_ne hx (splitOnChar_not_mem c a' ha')

theorem splitOnChar_append (c : Char) :
    ∀ (a b : Str), c ∉ a → splitOnChar c (a ++ c :: b) = a :: splitOnChar c b
  | [], b, _ => by simp [splitOnChar]
  | x :: a', b, h => by
    have hx : x ≠ c := fun hxc => h (hxc ▸ List.mem_cons_self x a')
    have ha' : c ∉ a' := fun hc => h (List.mem_cons_of_mem x hc)
    rw [List.cons_append]
    exact splitOnChar_cons_of_ne hx (splitOnChar_append c a' b ha')

/-! ### The integer print/parse round trip -/

theorem pyInt_cons {c : Char} {rest : Str} (h : pyStrip (c :: rest) = c :: rest) :
    pyInt (c :: rest) =
      if c = '-' then (digitsVal? rest).map fun n => -(n : Int)
      else if c = '+' then (digitsVal? rest).map fun n => (n : Int)
      else (digitsVal? (c :: rest)).map fun n => (n : Int) := by
  unfold pyInt
  rw [h]

theorem pyInt_intToStr (i : Int) : pyInt (intToStr i) = some i := by
  have hstrip := pyStrip_intToStr i
  by_cases hneg : i < 0
  · have h1 : intToStr i = '-' :: natToStr i.natAbs := by unfold intToStr; rw [if_pos hneg]
    rw [h1] at hstrip ⊢
    rw [pyInt_cons hstrip, if_pos rfl, digitsVal?_natToStr]
    exact congrArg some (show -((i.natAbs : Nat) : Int) = i by omega)
  · have h1 : intToStr i = natToStr i.toNat := by unfold intToStr; rw [if_neg hneg]
    cases hs : natToStr i.toNat with
    | nil => exact absurd hs (natToStr_ne_nil _)
    | cons a t =>
      obtain ⟨d, hd, rfl⟩ := mem_natToStr (hs ▸ List.mem_cons_self a t)
      rw [h1, hs] at hstrip ⊢
      rw [pyInt_cons hstrip, if_neg (digitChar_ne_minus hd), if_neg (digitChar_ne_plus hd),
        ← hs, digitsVal?_natToStr]
      exact congrArg some (show ((i.toNat : Nat) : Int) = i by omega)

/-! ### Reduction of `parse_task_line` on lines of known field shape -/

theorem split4_of_shape {L : Str} {ns s1 s2 s3 : Str}
    (hL : pyStrip L = ns ++ '|' :: (s1 ++ '|' :: (s2 ++ '|' :: s3)))
    (h0 : '|' ∉ ns) (hp1 : '|' ∉ s1) (hp2 : '|' ∉ s2) (hp3 : '|' ∉ s3) :
    splitOnChar '|' (pyStrip L) = [ns, s1, s2, s3] := by
  rw [hL, splitOnChar_append _ _ _ h0, splitOnChar_append _ _ _ hp1,
    splitOnChar_append _ _ _ hp2, splitOnChar_not_mem _ _ hp3]

theorem split6_of_shape {L : Str} {ns s1 s2 s3 s4 s5 : Str}
    (hL : pyStrip L = ns ++ '|' :: (s1 ++ '|' :: (s2 ++ '|' :: (s3 ++ '|' :: (s4 ++ '|' :: s5)))))
    (h0 : '|' ∉ ns) (hp1 : '|' ∉ s1) (hp2 : '|' ∉ s2) (hp3 : '|' ∉ s3)
    (hp4 : '|' ∉ s4) (hp5 : '|' ∉ s5) :
    splitOnChar '|' (pyStrip L) = [ns, s1, s2, s3, s4, s5] := by
  rw [hL, splitOnChar_append _ _ _ h0, splitOnChar_append _ _ _ hp1,
    splitOnChar_append _ _ _ hp2, splitOnChar_append _ _ _ hp3,
    splitOnChar_append _ _ _ hp4, splitOnChar_not_mem _ _ hp5]

theorem parse4_core {L : Str} (n : Nat) {ns s1 s2 s3 : Str} {y m d : Int}
    (hsplit : splitOnChar '|' (pyStrip L) = [ns, s1, s2, s3])
    (h1 : pyInt (pyStrip s1) = some y) (h2 : pyInt (pyStrip s2) = some m)
    (h3 : pyInt (pyStrip s3) = some d) :
    (datetime_check y m d 0 0 = .valid →
      parse_task_line L n = .ok ⟨pyStrip ns, some y, some m, some d, none, none⟩) ∧
    (datetime_check y m d 0 0 = .valueError →
      parse_task_line L n = .skip (some (warnMsg4 n L))) ∧
    (datetime_check y m d 0 0 = .overflow → parse_task_line L n = .raise) := by
  refine ⟨fun hv => ?_, fun hv => ?_, fun hv => ?_⟩ <;>
    · unfold parse_task_line
      rw [hsplit]
      simp only [h1, h2, h3, hv]

theorem parse6_core {L : Str} (n : Nat) {ns s1 s2 s3 s4 s5 : Str} {y m d h mi : Int}
    (hsplit : splitOnChar '|' (pyStrip L) = [ns, s1, s2, s3, s4, s5])
    (h1 : pyInt (pyStrip s1) = some y) (h2 : pyInt (pyStrip s2) = some m)
    (h3 : pyInt (pyStrip s3) = some d) (h4 : pyInt (pyStrip s4) = some h)
    (h5 : pyInt (pyStrip s5) = some mi) :
    (datetime_check y m d h mi = .valid →
      parse_task_line L n = .ok ⟨pyStrip ns, some y, some m, some d, some h, some mi⟩) ∧
    (datetime_check y m d h mi = .valueError →
      parse_task_line L n = .skip (some (warnMsg6 n L))) ∧
    (datetime_check y m d h mi = .overflow → parse_task_line L n = .raise) := by
  refine ⟨fun hv => ?_, fun hv => ?_, fun hv => ?_⟩ <;>
    · unfold parse_task_line
      rw [hsplit]
      simp only [h1, h2, h3, h4, h5, hv]

/-! ### The specification's composite ordering and well-formed records -/

theorem key_le_iff (y1 m1 d1 y2 m2 d2 : Int) (b1 b2 : Bool) (hk1 mk1 hk2 mk2 : WithTop Int) :
    ((toLex (y1, toLex (m1, toLex (d1, toLex (b1, toLex (hk1, mk1))))) : SortKey) ≤
        toLex (y2, toLex (m2, toLex (d2, toLex (b2, toLex (hk2, mk2)))))) ↔
      (y1 < y2 ∨ (y1 = y2 ∧ (m1 < m2 ∨ (m1 = m2 ∧ (d1 < d2 ∨ (d1 = d2 ∧
        (b1 < b2 ∨ (b1 = b2 ∧ (hk1 < hk2 ∨ (hk1 = hk2 ∧ mk1 ≤ mk2)))))))))) := by
  simp [Prod.Lex.le_iff]

theorem taskLe_iff_specLE {t u : Task} (ht : WFTask t) (hu : WFTask u) :
    taskLe t u ↔ specLE t u := by
  obtain ⟨tn, ty, tm, td, th, tmi⟩ := t
  obtain ⟨un, uy, um, ud, uh, umi⟩ := u
  obtain ⟨hty, htm, htd, hth⟩ := ht
  obtain ⟨huy, hum, hud, huh⟩ := hu
  simp only [WFTask] at hty htm htd hth huy hum hud huh
  rcases ty with _ | y1
  · simp at hty
  rcases tm with _ | m1
  · simp at htm
  rcases td with _ | d1
  · simp at htd
  rcases uy with _ | y2
  · simp at huy
  rcases um with _ | m2
  · simp at hum
  rcases ud with _ | d2
  · simp at hud
  rcases th with _ | h1 <;> rcases tmi with _ | mi1 <;> rcases uh with _ | h2 <;>
      rcases umi with _ | mi2 <;> simp at hth huh
  all_goals
    unfold taskLe task_sort_key hourKey minuteKey specLE
    dsimp only
    rw [key_le_iff]
    simp [Bool.lt_iff, WithTop.coe_lt_coe, WithTop.coe_le_coe, WithTop.coe_lt_top,
      WithTop.coe_ne_top, top_le_iff, le_top]

/-! ### Stability of the insertion sort used to model Python's stable sort -/

theorem taskLe_of_key_eq {a b : Task} (h : task_sort_key a = task_sort_key b) : taskLe a b := by
  unfold taskLe
  exact le_of_eq h

theorem filter_orderedInsert (k : SortKey) (a : Task) (l : List Task) :
    (l.orderedInsert taskLe a).filter (fun t => decide (task_sort_key t = k)) =
      if task_sort_key a = k then
        a :: l.filter (fun t => decide (task_sort_key t = k))
      else l.filter (fun t => decide (task_sort_key t = k)) := by
  induction l with
  | nil =>
    by_cases hk : task_sort_key a = k
    · simp [List.orderedInsert, List.filter_cons, hk]
    · simp [List.orderedInsert, List.filter_cons, hk]
  | cons b t ih =>
    by_cases hr : taskLe a b
    · rw [List.orderedInsert, if_pos hr]
      by_cases hk : task_sort_key a = k
      · simp [List.filter_cons, hk]
      · simp [List.filter_cons, hk]
    · rw [List.orderedInsert, if_neg hr]
      by_cases hk : task_sort_key a = k
      · have hbk : ¬ task_sort_key b = k := fun hb =>
          hr (taskLe_of_key_eq (hk.trans hb.symm))
        rw [if_pos hk] at ih
        simp only [List.filter_cons, decide_eq_true_eq, hbk, if_false, ih, if_pos hk]
      · rw [if_neg hk] at ih
        simp only [List.filter_cons, ih, if_neg hk]

theorem filter_insertionSort (k : SortKey) (l : List Task) :
    (l.insertionSort taskLe).filter (fun t => decide (task_sort_key t = k)) =
      l.filter (fun t => decide (task_sort_key t = k)) := by
  induction l with
  | nil => rfl
  | cons a t ih =>
    rw [List.insertionSort, filter_orderedInsert]
    by_cases hk : task_sort_key a = k
    · rw [if_pos hk, ih]
      simp [List.filter_cons, hk]
    · rw [if_neg hk, ih]
      simp [List.filter_cons, hk]

/-! ### Valid records and the serialize/parse round trip -/

theorem getLast?_append_right {a b : Str} (hb : b ≠ []) : (a ++ b).getLast? = b.getLast? := by
  rw [List.getLast?_append]
  cases hl : b.getLast? with
  | none => exact absurd (List.getLast?_eq_none_iff.mp hl) hb
  | some c => rfl

theorem head?_append_left {a b : Str} (h : a ≠ []) : (a ++ b).head? = a.head? := by
  obtain ⟨x, t, rfl⟩ := List.exists_cons_of_ne_nil h
  simp

theorem pyInt_pyStrip_intToStr (i : Int) : pyInt (pyStrip (intToStr i)) = some i := by
  rw [pyStrip_intToStr]
  exact pyInt_intToStr i

theorem write_task_line_untimed (nm : Str) (y m d : Int) (th tmi : Option Int)
    (h : (th.isSome && tmi.isSome) = false) :
    write_task_line ⟨nm, some y, some m, some d, th, tmi⟩ =
      (nm ++ '|' :: (intToStr y ++ '|' :: (intToStr m ++ '|' :: intToStr d))) ++ ['\n'] := by
  unfold write_task_line
  rw [if_neg (by simp [h])]
  simp [fieldStr, List.append_assoc]

theorem write_task_line_timed (nm : Str) (y m d h mi : Int) :
    write_task_line ⟨nm, some y, some m, some d, some h, some mi⟩ =
      (nm ++ '|' :: (intToStr y ++ '|' :: (intToStr m ++ '|' :: (intToStr d ++ '|' ::
        (intToStr h ++ '|' :: intToStr mi))))) ++ ['\n'] := by
  unfold write_task_line
  rw [if_pos (by simp)]
  simp [fieldStr, List.append_assoc]

theorem body4_getLast (nm : Str) (y m d : Int) :
    (nm ++ '|' :: (intToStr y ++ '|' :: (intToStr m ++ '|' :: intToStr d))).getLast? =
      (intToStr d).getLast? := by
  have hsh : nm ++ '|' :: (intToStr y ++ '|' :: (intToStr m ++ '|' :: intToStr d)) =
      (nm ++ '|' :: (intToStr y ++ '|' :: (intToStr m ++ ['|']))) ++ intToStr d := by
    simp [List.append_assoc]
  rw [hsh, getLast?_append_right (intToStr_ne_nil d)]

theorem body6_getLast (nm : Str) (y m d h mi : Int) :
    (nm ++ '|' :: (intToStr y ++ '|' :: (intToStr m ++ '|' :: (intToStr d ++ '|' ::
      (intToStr h ++ '|' :: intToStr mi))))).getLast? = (intToStr mi).getLast? := by
  have hsh : nm ++ '|' :: (intToStr y ++ '|' :: (intToStr m ++ '|' :: (intToStr d ++ '|' ::
        (intToStr h ++ '|' :: intToStr mi)))) =
      (nm ++ '|' :: (intToStr y ++ '|' :: (intToStr m ++ '|' :: (intToStr d ++ '|' ::
        (intToStr h ++ ['|']))))) ++ intToStr mi := by
    simp [List.append_assoc]
  rw [hsh, getLast?_append_right (intToStr_ne_nil mi)]

/-- C2 (amended): serializing a valid record whose name survives the
parser's own transformations (no field separator inside it, invariant
under stripping) and re-parsing the emitted line yields the record back,
in both the untimed and the timed form. -/
theorem C2_roundtrip (t : Task) (n : Nat) (hv : ValidTask t)
    (hp : '|' ∉ t.name) (hs : pyStrip t.name = t.name) :
    parse_task_line (write_task_line t) n = .ok t := by
  obtain ⟨nm, ty, tmo, tdd, th, tmi⟩ := t
  obtain ⟨hname, hys, hms, hds, hpair, hdt⟩ := hv
  simp only at hname hys hms hds hpair hdt hp hs
  obtain ⟨y, rfl⟩ := Option.isSome_iff_exists.mp hys
  obtain ⟨m, rfl⟩ := Option.isSome_iff_exists.mp hms
  obtain ⟨d, rfl⟩ := Option.isSome_iff_exists.mp hds
  rcases th with _ | h
  · have htmi : tmi = none := by
      cases tmi with
      | none => rfl
      | some x => simp at hpair
    subst htmi
    have hw := write_task_line_untimed nm y m d none none (by simp)
    have hhead : ∀ c ∈ (nm ++ '|' :: (intToStr y ++ '|' ::
        (intToStr m ++ '|' :: intToStr d))).head?, c.isWhitespace = false := by
      intro c hc
      rw [head?_append_left hname] at hc
      exact (pyStrip_self_head_last hs).1 c hc
    have hlast : ∀ c ∈ (nm ++ '|' :: (intToStr y ++ '|' ::
        (intToStr m ++ '|' :: intToStr d))).getLast?, c.isWhitespace = false := by
      intro c hc
      rw [body4_getLast] at hc
      exact mem_intToStr_not_ws (List.mem_of_getLast?_eq_some hc)
    have hL : pyStrip (write_task_line ⟨nm, some y, some m, some d, none, none⟩) =
        nm ++ '|' :: (intToStr y ++ '|' :: (intToStr m ++ '|' :: intToStr d)) := by
      rw [hw]
      exact pyStrip_append_newline (by simp [hname]) hhead hlast
    have hsplit := split4_of_shape hL hp (pipe_not_mem_intToStr) (pipe_not_mem_intToStr)
      (pipe_not_mem_intToStr)
    have hcore := parse4_core n hsplit (pyInt_pyStrip_intToStr y) (pyInt_pyStrip_intToStr m)
      (pyInt_pyStrip_intToStr d)
    have hvalid : datetime_check y m d 0 0 = .valid := by simpa using hdt
    rw [hcore.1 hvalid, hs]
  · obtain ⟨mi, rfl⟩ : ∃ mi, tmi = some mi := by
      cases tmi with
      | none => simp at hpair
      | some x => exact ⟨x, rfl⟩
    have hw := write_task_line_timed nm y m d h mi
    have hhead : ∀ c ∈ (nm ++ '|' :: (intToStr y ++ '|' :: (intToStr m ++ '|' ::
        (intToStr d ++ '|' :: (intToStr h ++ '|' :: intToStr mi))))).head?,
        c.isWhitespace = false := by
      intro c hc
      rw [head?_append_left hname] at hc
      exact (pyStrip_self_head_last hs).1 c hc
    have hlast : ∀ c ∈ (nm ++ '|' :: (intToStr y ++ '|' :: (intToStr m ++ '|' ::
        (intToStr d ++ '|' :: (intToStr h ++ '|' :: intToStr mi))))).getLast?,
        c.isWhitespace = false := by
      intro c hc
      rw [body6_getLast] at hc
      exact mem_intToStr_not_ws (List.mem_of_getLast?_eq_some hc)
    have hL : pyStrip (write_task_line ⟨nm, some y, some m, some d, some h, some mi⟩) =
        nm ++ '|' :: (intToStr y ++ '|' :: (intToStr m ++ '|' ::
          (intToStr d ++ '|' :: (intToStr h ++ '|' :: intToStr mi)))) := by
      rw [hw]
      exact pyStrip_append_newline (by simp [hname]) hhead hlast
    have hsplit := split6_of_shape hL hp (pipe_not_mem_intToStr) (pipe_not_mem_intToStr)
      (pipe_not_mem_intToStr) (pipe_not_mem_intToStr) (pipe_not_mem_intToStr)
    have hcore := parse6_core n hsplit (pyInt_pyStrip_intToStr y) (pyInt_pyStrip_intToStr m)
      (pyInt_pyStrip_intToStr d) (pyInt_pyStrip_intToStr h) (pyInt_pyStrip_intToStr mi)
    have hvalid : datetime_check y m d h mi = .valid := by simpa using hdt
    rw [hcore.1 hvalid, hs]

/-! ### What the warning messages contain -/

theorem containsSeg_mid (A s rest : Str) : containsSeg s (A ++ (s ++ rest)) := ⟨A, rest, rfl⟩

theorem containsSeg_append_left (x : Str) {s b : Str} (h : containsSeg s b) :
    containsSeg s (x ++ b) := by
  obtain ⟨a, c, rfl⟩ := h
  exact ⟨x ++ a, c, by simp [List.append_assoc]⟩

theorem warnMsg4_contains (n : Nat) (line : Str) :
    containsSeg (natToStr n) (warnMsg4 n line) ∧ containsSeg (pyStrip line) (warnMsg4 n line) := by
  unfold warnMsg4
  constructor
  · exact ⟨strLit "Warning: Skipping invalid data format on line ",
      strLit ": \x27" ++ pyStrip line ++
        strLit "\x27 (Date parts must be integers or invalid date)",
      by simp [List.append_assoc]⟩
  · exact ⟨strLit "Warning: Skipping invalid data format on line " ++ natToStr n ++ strLit ": \x27",
      strLit "\x27 (Date parts must be integers or invalid date)", by simp [List.append_assoc]⟩

theorem warnMsg6_contains (n : Nat) (line : Str) :
    containsSeg (natToStr n) (warnMsg6 n line) ∧ containsSeg (pyStrip line) (warnMsg6 n line) := by
  unfold warnMsg6
  constructor
  · exact ⟨strLit "Warning: Skipping invalid data format on line ",
      strLit ": \x27" ++ pyStrip line ++
        strLit "\x27 (Date/Time parts must be integers or invalid date/time)",
      by simp [List.append_assoc]⟩
  · exact ⟨strLit "Warning: Skipping invalid data format on line " ++ natToStr n ++ strLit ": \x27",
      strLit "\x27 (Date/Time parts must be integers or invalid date/time)",
      by simp [List.append_assoc]⟩

theorem warnMsgCount_contains (n : Nat) (line : Str) :
    containsSeg (natToStr n) (warnMsgCount n line) ∧
      containsSeg (pyStrip line) (warnMsgCount n line) := by
  unfold warnMsgCount
  constructor
  · exact ⟨strLit "Warning: Skipping invalid line format on line ",
      strLit ": \x27" ++ pyStrip line ++
        strLit "\x27 (Expected 4 or 6 parts separated by \x27|\x27)",
      by simp [List.append_assoc]⟩
  · exact ⟨strLit "Warning: Skipping invalid line format on line " ++ natToStr n ++ strLit ": \x27",
      strLit "\x27 (Expected 4 or 6 parts separated by \x27|\x27)", by simp [List.append_assoc]⟩

theorem warnMsgCount_names_counts (n : Nat) (line : Str) :
    containsSeg (strLit "Expected 4 or 6 parts") (warnMsgCount n line) := by
  unfold warnMsgCount
  have hdec : strLit "\x27 (Expected 4 or 6 parts separated by \x27|\x27)" =
      strLit "\x27 (" ++ (strLit "Expected 4 or 6 parts" ++ strLit " separated by \x27|\x27)") := by
    decide
  rw [hdec]
  exact ⟨strLit "Warning: Skipping invalid line format on line " ++ natToStr n ++
      strLit ": \x27" ++ pyStrip line ++ strLit "\x27 (",
    strLit " separated by \x27|\x27)", by simp [List.append_assoc]⟩

/-- Every warning the parser can emit is one of the three message
templates for that line and line number. -/
theorem parse_skip_some_msg {line : Str} {n : Nat} {w : Str}
    (h : parse_task_line line n = .skip (some w)) :
    w = warnMsg4 n line ∨ w = warnMsg6 n line ∨ w = warnMsgCount n line := by
  unfold parse_task_line at h
  repeat' split at h
  all_goals simp_all

/-! ### The claims -/

/-- C4: the parser is meant to reject any 4- or 6-field line with integer
fields but an invalid calendar date/time by warning and producing no
record — it does so for `Meeting|2024|2|30`, but for a year beyond the C
`int` range of the `datetime` check the uncaught `OverflowError`
propagates instead of producing the promised diagnostic. -/
theorem C4_invalid_date_paths :
    parse_task_line (strLit "Meeting|2024|2|30") 1 =
        .skip (some (warnMsg4 1 (strLit "Meeting|2024|2|30"))) ∧
      parse_task_line (strLit "Meeting|2147483648|1|1") 1 = .raise := by
  decide

/-- C5 (counterexample): a record with an hour but no minute is not
serialized to an inconsistent line — the serializer's presence check
sends it down the untimed branch, emitting exactly the canonical 4-field
line of the corresponding untimed record, which even re-parses as that
untimed record. -/
theorem C5_partial_time_cex :
    write_task_line partialTimeTask = strLit "X|2024|1|2\n" ∧
      write_task_line partialTimeTask =
        write_task_line ⟨strLit "X", some 2024, some 1, some 2, none, none⟩ ∧
      parse_task_line (write_task_line partialTimeTask) 1 =
        .ok ⟨strLit "X", some 2024, some 1, some 2, none, none⟩ := by
  decide

/-- C5 (amended): a record reaching the serializer with at most one of
hour/minute set is emitted in the canonical 4-field untimed form for its
name and date, silently dropping the partially present time component. -/
theorem C5_partial_time_untimed_form (t : Task) (h : t.hour = none ∨ t.minute = none) :
    write_task_line t = write_task_line ⟨t.name, t.year, t.month, t.day, none, none⟩ := by
  unfold write_task_line
  rcases h with h | h <;> rw [h] <;> simp

theorem C5_witness :
    write_task_line ⟨strLit "Y", some 2024, some 1, some 2, none, some 30⟩ =
      write_task_line ⟨strLit "Y", some 2024, some 1, some 2, none, none⟩ :=
  C5_partial_time_untimed_form _ (Or.inl rfl)

/-- C2 (counterexample): a record that satisfies the data model's validity
requirements but whose name contains the field separator `|` does not
survive the serialize/parse round trip — the emitted line splits into
five fields and is rejected. -/
theorem C2_roundtrip_cex :
    ValidTask pipeNameTask ∧
      parse_task_line (write_task_line pipeNameTask) 1 ≠ .ok pipeNameTask := by
  decide

theorem C2_witness : parse_task_line (write_task_line taskA) 1 = .ok taskA :=
  C2_roundtrip taskA 1 (by decide) (by decide) (by decide)

/-- C6: the sort key treats a missing year/month/day as the lowest value 0
(the key equals that of the record with those fields filled in as 0), and
a record without an hour sorts exactly as the untimed record on its date,
whatever its minute field holds; the key function is total, so sorting
cannot fail on such records. -/
theorem C6_missing_fields_defaults (t : Task) :
    task_sort_key t = task_sort_key ⟨t.name, some (t.year.getD 0), some (t.month.getD 0),
        some (t.day.getD 0), t.hour, t.minute⟩ ∧
      (t.hour = none → task_sort_key t = task_sort_key ⟨t.name, some (t.year.getD 0),
        some (t.month.getD 0), some (t.day.getD 0), none, none⟩) := by
  constructor
  · simp [task_sort_key, hourKey, minuteKey]
  · intro h
    simp [task_sort_key, hourKey, minuteKey, h]

theorem C6_witness :
    task_sort_key ⟨strLit "x", none, none, none, none, some 5⟩ =
      task_sort_key ⟨strLit "x", some 0, some 0, some 0, none, none⟩ :=
  (C6_missing_fields_defaults ⟨strLit "x", none, none, none, none, some 5⟩).2 rfl

/-- C7: the parser is meant never to raise, reporting every rejection as a
warning that identifies the line number and the (stripped) raw content —
the warnings do carry both, but a year outside the C `int` range makes the
uncaught `OverflowError` of the `datetime` check escape to the caller. -/
theorem C7_rejection_reporting :
    parse_task_line (strLit "X|9999999999|1|1") 7 = .raise ∧
      (∀ (line : Str) (n : Nat) (w : Str), parse_task_line line n = .skip (some w) →
        containsSeg (natToStr n) w ∧ containsSeg (pyStrip line) w) := by
  constructor
  · decide
  · intro line n w h
    rcases parse_skip_some_msg h with rfl | rfl | rfl
    · exact warnMsg4_contains n line
    · exact warnMsg6_contains n line
    · exact warnMsgCount_contains n line

theorem C7_witness :
    containsSeg (natToStr 2) (warnMsgCount 2 (strLit "a|b")) ∧
      containsSeg (pyStrip (strLit "a|b")) (warnMsgCount 2 (strLit "a|b")) :=
  C7_rejection_reporting.2 (strLit "a|b") 2 (warnMsgCount 2 (strLit "a|b")) (by decide)

/-- C8: the sort returns a permutation of its input (a new sequence; the
input itself is untouched in this purely functional embedding), and it is
stable: for every key value, the records carrying that key appear in the
output in exactly their input order. -/
theorem C8_sort_stable (l : List Task) :
    (sort_tasks l).Perm l ∧
      ∀ k : SortKey, (sort_tasks l).filter (fun t => decide (task_sort_key t = k)) =
        l.filter (fun t => decide (task_sort_key t = k)) :=
  ⟨List.perm_insertionSort taskLe l, fun k => filter_insertionSort k l⟩

/-- C9: a delete index outside `0 ≤ i < length` (negative included) is
rejected with the invalid-index message and leaves the collection alone
with nothing saved; an in-bounds index removes exactly the record at that
0-based position and persists the serialization of the whole remaining
collection. -/
theorem C9_delete_task_bounds (tasks : List Task) (i : Int) :
    ((i < 0 ∨ (tasks.length : Int) ≤ i) →
      delete_task tasks i = ⟨tasks, none, none, some invalidIndexMsg⟩) ∧
      (0 ≤ i → i < (tasks.length : Int) →
        delete_task tasks i = ⟨tasks.take i.toNat ++ tasks.drop (i.toNat + 1), tasks[i.toNat]?,
          some (write_tasks_to_file (tasks.take i.toNat ++ tasks.drop (i.toNat + 1))), none⟩) := by
  constructor
  · intro h
    unfold delete_task
    rw [if_neg (by omega)]
  · intro h0 hl
    unfold delete_task
    rw [if_pos ⟨h0, hl⟩, List.eraseIdx_eq_take_drop_succ]

theorem C9_witness :
    delete_task [taskA] (-1) = ⟨[taskA], none, none, some invalidIndexMsg⟩ ∧
      delete_task [taskA] 0 = ⟨[], some taskA, some (write_tasks_to_file []), none⟩ :=
  ⟨(C9_delete_task_bounds [taskA] (-1)).1 (Or.inl (by decide)),
    (C9_delete_task_bounds [taskA] 0).2 (by decide) (by decide)⟩

/-- C1: the sorter returns the records ascending by the composite key
(year, month, day, has-a-time flag, hour, minute) where untimed records
sort before timed records sharing their date and timed records sharing a
date are ordered lexicographically by (hour, minute); in particular the
spec's example `[B 01-02 untimed, A 01-02 09:00, C 01-01]` sorts to
`[C, B, A]`. -/
theorem C1_sort_composite_order (l : List Task) (hwf : ∀ t ∈ l, WFTask t) :
    ((sort_tasks l).Sorted specLE ∧ (sort_tasks l).Perm l) ∧
      sort_tasks [taskB, taskA, taskC] = [taskC, taskB, taskA] := by
  have hperm : (sort_tasks l).Perm l := List.perm_insertionSort taskLe l
  refine ⟨⟨?_, hperm⟩, by decide⟩
  have hs : (sort_tasks l).Sorted taskLe := List.sorted_insertionSort taskLe l
  refine List.Pairwise.imp_of_mem ?_ hs
  intro a b ha hb hab
  exact (taskLe_iff_specLE (hwf a (hperm.subset ha)) (hwf b (hperm.subset hb))).mp hab

theorem C1_witness :
    ((sort_tasks [taskB, taskA, taskC]).Sorted specLE ∧
      (sort_tasks [taskB, taskA, taskC]).Perm [taskB, taskA, taskC]) ∧
      sort_tasks [taskB, taskA, taskC] = [taskC, taskB, taskA] :=
  C1_sort_composite_order [taskB, taskA, taskC] (by decide)

/-- C3: the parser dispatches on the number of `|`-separated fields of the
stripped line: a 4-field line whose numeric fields and date check out
yields exactly the untimed record of those fields (and any record
produced from a 4-field line is untimed, with hour and minute unset); a
6-field line likewise yields the timed record; a blank line yields no
record and no warning; any other field count on a non-blank line yields
no record plus the diagnostic that names the expected counts. -/
theorem C3_field_count_dispatch (line : Str) (n : Nat) :
    (∀ p0 p1 p2 p3, splitOnChar '|' (pyStrip line) = [p0, p1, p2, p3] →
      (∀ y m d, pyInt (pyStrip p1) = some y → pyInt (pyStrip p2) = some m →
        pyInt (pyStrip p3) = some d → datetime_check y m d 0 0 = .valid →
        parse_task_line line n = .ok ⟨pyStrip p0, some y, some m, some d, none, none⟩) ∧
      (∀ t, parse_task_line line n = .ok t →
        t.name = pyStrip p0 ∧ t.year = pyInt (pyStrip p1) ∧ t.month = pyInt (pyStrip p2) ∧
          t.day = pyInt (pyStrip p3) ∧ t.hour = none ∧ t.minute = none)) ∧
    (∀ p0 p1 p2 p3 p4 p5, splitOnChar '|' (pyStrip line) = [p0, p1, p2, p3, p4, p5] →
      (∀ y m d h mi, pyInt (pyStrip p1) = some y → pyInt (pyStrip p2) = some m →
        pyInt (pyStrip p3) = some d → pyInt (pyStrip p4) = some h →
        pyInt (pyStrip p5) = some mi → datetime_check y m d h mi = .valid →
        parse_task_line line n = .ok ⟨pyStrip p0, some y, some m, some d, some h, some mi⟩) ∧
      (∀ t, parse_task_line line n = .ok t →
        t.name = pyStrip p0 ∧ t.year = pyInt (pyStrip p1) ∧ t.month = pyInt (pyStrip p2) ∧
          t.day = pyInt (pyStrip p3) ∧ t.hour = pyInt (pyStrip p4) ∧
          t.minute = pyInt (pyStrip p5))) ∧
    (pyStrip line = [] → parse_task_line line n = .skip none) ∧
    (pyStrip line ≠ [] → (splitOnChar '|' (pyStrip line)).length ≠ 4 →
      (splitOnChar '|' (pyStrip line)).length ≠ 6 →
      parse_task_line line n = .skip (some (warnMsgCount n line)) ∧
        containsSeg (strLit "Expected 4 or 6 parts") (warnMsgCount n line)) := by
  refine ⟨?_, ?_, ?_, ?_⟩
  · intro p0 p1 p2 p3 hsplit
    constructor
    · intro y m d hy hm hd hv
      exact (parse4_core n hsplit hy hm hd).1 hv
    · intro t ht
      unfold parse_task_line at ht
      simp only [hsplit] at ht
      rcases hy : pyInt (pyStrip p1) with _ | y
      · simp only [hy] at ht
        exact absurd ht (by simp)
      rcases hm : pyInt (pyStrip p2) with _ | m
      · simp only [hy, hm] at ht
        exact absurd ht (by simp)
      rcases hd : pyInt (pyStrip p3) with _ | d
      · simp only [hy, hm, hd] at ht
        exact absurd ht (by simp)
      simp only [hy, hm, hd] at ht
      rcases hv : datetime_check y m d 0 0 with _ | _ | _
      · simp only [hv] at ht
        obtain rfl := (ParseResult.ok.inj ht).symm
        simp
      · simp only [hv] at ht
        exact absurd ht (by simp)
      · simp only [hv] at ht
        exact absurd ht (by simp)
  · intro p0 p1 p2 p3 p4 p5 hsplit
    constructor
    · intro y m d h mi hy hm hd hh hmi hv
      exact (parse6_core n hsplit hy hm hd hh hmi).1 hv
    · intro t ht
      unfold parse_task_line at ht
      simp only [hsplit] at ht
      rcases hy : pyInt (pyStrip p1) with _ | y
      · simp only [hy] at ht
        exact absurd ht (by simp)
      rcases hm : pyInt (pyStrip p2) with _ | m
      · simp only [hy, hm] at ht
        exact absurd ht (by simp)
      rcases hd : pyInt (pyStrip p3) with _ | d
      · simp only [hy, hm, hd] at ht
        exact absurd ht (by simp)
      rcases hh : pyInt (pyStrip p4) with _ | h
      · simp only [hy, hm, hd, hh] at ht
        exact absurd ht (by simp)
      rcases hmi : pyInt (pyStrip p5) with _ | mi
      · simp only [hy, hm, hd, hh, hmi] at ht
        exact absurd ht (by simp)
      simp only [hy, hm, hd, hh, hmi] at ht
      rcases hv : datetime_check y m d h mi with _ | _ | _
      · simp only [hv] at ht
        obtain rfl := (ParseResult.ok.inj ht).symm
        simp
      · simp only [hv] at ht
        exact absurd ht (by simp)
      · simp only [hv] at ht
        exact absurd ht (by simp)
  · intro hblank
    unfold parse_task_line
    rw [hblank]
    simp [splitOnChar, hblank]
  · intro hne h4 h6
    refine ⟨?_, warnMsgCount_names_counts n line⟩
    rcases hsp : splitOnChar '|' (pyStrip line) with
      _ | ⟨p0, _ | ⟨p1, _ | ⟨p2, _ | ⟨p3, _ | ⟨p4, _ | ⟨p5, _ | ⟨p6, rest⟩⟩⟩⟩⟩⟩⟩
    · exact absurd hsp (splitOnChar_ne_nil '|' (pyStrip line))
    · unfold parse_task_line
      rw [hsp]
      simp [hne]
    · unfold parse_task_line
      rw [hsp]
      simp [hne]
    · unfold parse_task_line
      rw [hsp]
      simp [hne]
    · exact absurd (show (splitOnChar '|' (pyStrip line)).length = 4 by rw [hsp]; rfl) h4
    · unfold parse_task_line
      rw [hsp]
      simp [hne]
    · exact absurd (show (splitOnChar '|' (pyStrip line)).length = 6 by rw [hsp]; rfl) h6
    · unfold parse_task_line
      rw [hsp]
      simp [hne]

theorem C3_witness :
    parse_task_line (strLit "a|b") 9 = .skip (some (warnMsgCount 9 (strLit "a|b"))) ∧
      containsSeg (strLit "Expected 4 or 6 parts") (warnMsgCount 9 (strLit "a|b")) :=
  (C3_field_count_dispatch (strLit "a|b") 9).2.2.2 (by decide) (by decide) (by decide)

/-- Specialisation of the `datetime` model to `X|<y>|1|1`: every argument
except the year is in range, so the outcome depends on the year alone. -/
theorem datetime_check_year (y : Int) :
    datetime_check y 1 1 0 0 =
      if y < cIntMin ∨ cIntMax < y then .overflow
      else if 1 ≤ y ∧ y ≤ 9999 then .valid else .valueError := by
  have hdm : daysInMonth y 1 = 31 := by
    unfold daysInMonth
    rw [if_neg (by decide : ¬(1 : Int) = 2), if_neg (by decide)]
  by_cases hov : y < cIntMin ∨ cIntMax < y
  · rw [if_pos hov]
    unfold datetime_check
    rcases hov with h | h
    · rw [if_pos (Or.inl h)]
    · rw [if_pos (Or.inr (Or.inl h))]
  · rw [if_neg hov]
    unfold datetime_check
    rw [if_neg (by simp only [cIntMin, cIntMax] at hov ⊢; omega)]
    by_cases h9 : 1 ≤ y ∧ y ≤ 9999
    · rw [if_pos h9, if_pos (by refine ⟨h9.1, h9.2, ?_⟩; rw [hdm]; norm_num)]
    · rw [if_neg h9, if_neg (by rw [hdm]; intro hcon; exact h9 ⟨hcon.1, hcon.2.1⟩)]

/-- C10: the line `X|<y>|1|1` is accepted exactly when the year lies
between 1 and 9999; outside that range but within the C `int` range of
the `datetime` constructor it is rejected with the usual warning, while a
year beyond the C `int` range makes the parser raise (the `OverflowError`
of the `datetime` check is not caught), so the rejection path differs. -/
theorem C10_year_range (y : Int) :
    ((∃ t, parse_task_line (yearLine y) 1 = .ok t) ↔ (1 ≤ y ∧ y ≤ 9999)) ∧
      (¬(1 ≤ y ∧ y ≤ 9999) → cIntMin ≤ y → y ≤ cIntMax →
        parse_task_line (yearLine y) 1 = .skip (some (warnMsg4 1 (yearLine y)))) ∧
      ((y < cIntMin ∨ cIntMax < y) → parse_task_line (yearLine y) 1 = .raise) := by
  have hstrip : pyStrip (yearLine y) = yearLine y := by
    apply pyStrip_eq_self_of
    · intro c hc
      unfold yearLine at hc
      rw [head?_append_left (by decide : strLit "X" ≠ [])] at hc
      have hx : 'X' = c := by simpa [strLit] using hc
      rw [← hx]
      decide
    · intro c hc
      have hsh : yearLine y =
          (strLit "X" ++ '|' :: (intToStr y ++ '|' :: (strLit "1" ++ ['|']))) ++ strLit "1" := by
        unfold yearLine
        simp [List.append_assoc]
      rw [hsh, getLast?_append_right (by decide : strLit "1" ≠ [])] at hc
      have hx : '1' = c := by simpa [strLit] using hc
      rw [← hx]
      decide
  have hsplit : splitOnChar '|' (pyStrip (yearLine y)) =
      [strLit "X", intToStr y, strLit "1", strLit "1"] := by
    refine split4_of_shape ?_ (by decide) pipe_not_mem_intToStr (by decide) (by decide)
    rw [hstrip]
    rfl
  have hcore := parse4_core 1 hsplit (pyInt_pyStrip_intToStr y)
    (by decide : pyInt (pyStrip (strLit "1")) = some 1)
    (by decide : pyInt (pyStrip (strLit "1")) = some 1)
  have hdt := datetime_check_year y
  refine ⟨⟨?_, ?_⟩, ?_, ?_⟩
  · rintro ⟨t, ht⟩
    by_contra h9
    by_cases hov : y < cIntMin ∨ cIntMax < y
    · rw [hcore.2.2 (by rw [hdt, if_pos hov])] at ht
      simp at ht
    · rw [hcore.2.1 (by rw [hdt, if_neg hov, if_neg h9])] at ht
      simp at ht
  · intro h9
    exact ⟨_, hcore.1 (by
      rw [hdt, if_neg (by simp only [cIntMin, cIntMax]; omega), if_pos h9])⟩
  · intro h9 hc1 hc2
    exact hcore.2.1 (by
      rw [hdt, if_neg (by simp only [cIntMin, cIntMax] at hc1 hc2 ⊢; omega), if_neg h9])
  · intro hov
    exact hcore.2.2 (by rw [hdt, if_pos hov])

theorem C10_witness :
    parse_task_line (yearLine 0) 1 = .skip (some (warnMsg4 1 (yearLine 0))) :=
  (C10_year_range 0).2.1 (by decide) (by decide) (by decide)

example : pyInt (strLit " 42 ") = some 42 := by decide
example : pyInt (strLit "-7") = some (-7) := by decide
example : pyInt (strLit "4a") = none := by decide
example : splitOnChar '|' (strLit "a|b||c") = [strLit "a", strLit "b", [], strLit "c"] := by decide
example : splitOnChar '|' [] = [[]] := by decide
example : intToStr 2024 = strLit "2024" := by decide
example : intToStr (-13) = strLit "-13" := by decide
example : datetime_check 2024 2 30 0 0 = .valueError := by decide
example : datetime_check 2024 2 29 0 0 = .valid := by decide
example : datetime_check 2147483648 1 1 0 0 = .overflow := by decide
example :
    parse_task_line (strLit "Meeting|2024|2|30") 1 =
      .skip (some (warnMsg4 1 (strLit "Meeting|2024|2|30"))) := by decide
example :
    parse_task_line (strLit "A|2024|1|2|9|0") 1 =
      .ok ⟨strLit "A", some 2024, some 1, some 2, some 9, some 0⟩ := by decide
example : parse_task_line (strLit "   ") 1 = .skip none := by decide
example : parse_task_line (strLit "X|2147483648|1|1") 1 = .raise := by decide
example :
    write_task_line ⟨strLit "X", some 2024, some 1, some 2, some 9, none⟩ =
      strLit "X|2024|1|2\n" := by decide
example :
    sort_tasks
        [⟨strLit "B", some 2024, some 1, some 2, none, none⟩,
         ⟨strLit "A", some 2024, some 1, some 2, some 9, some 0⟩,
         ⟨strLit "C", some 2024, some 1, some 1, none, none⟩] =
      [⟨strLit "C", some 2024, some 1, some 1, none, none⟩,
       ⟨strLit "B", some 2024, some 1, some 2, none, none⟩,
       ⟨strLit "A", some 2024, some 1, some 2, some 9, some 0⟩] := by decide

end SortTasks
